import Mathlib

/-!
Shallow embedding of `ultralytics/models/rtdetr/predict.py`
(`RTDETRPredictor.postprocess` and `RTDETRPredictor.pre_transform`).

Tensors are modelled as nested lists over `ℚ`; a raw prediction tensor of
shape `(B, N, nd)` is a batch of per-image lists of rows, each row holding
4 box coordinates followed by `nd - 4` per-class scores.
-/

namespace RTDETR

/-- An original (numpy) image: `orig_img.shape[:2] = (h, w)`; `pix` abstracts
the pixel contents, which this file's code never inspects. -/
structure Image where
  h : ℕ
  w : ℕ
  pix : ℕ
  deriving DecidableEq

/-- One decoded detection row `[x1, y1, x2, y2, conf, cls]`, as assembled by
`torch.cat([bbox, max_score, cls], dim=-1)`; `cls` is the argmax index of the
score vector. -/
structure Det where
  x1 : ℚ
  y1 : ℚ
  x2 : ℚ
  y2 : ℚ
  conf : ℚ
  cls : ℕ
  deriving DecidableEq

/-- The fields of `self.args` that `postprocess` reads. -/
structure Args where
  conf : ℚ
  classes : Option (List ℕ)
  max_det : ℕ
  deriving DecidableEq

/-- The predictor state the two methods read: `self.args`, `self.batch[0]`
(the source paths), `self.model.names` and `self.imgsz`. -/
structure Predictor where
  args : Args
  batch_paths : List String
  names : List String
  imgsz : ℕ
  deriving DecidableEq

/-- A `Results` object as constructed at the call site
`Results(orig_img, path=img_path, names=self.model.names, boxes=pred)`. -/
structure Results where
  orig_img : Image
  path : String
  names : List String
  boxes : List Det
  deriving DecidableEq

/-- The `preds` argument: either the bare predictions tensor (export
inference) or the list `[predictions, extra]` (PyTorch inference). -/
inductive Preds where
  | tensor (t : List (List (List ℚ)))
  | listOf (t : List (List (List ℚ))) (extra : Option (List (List ℚ)))
  deriving DecidableEq

/-- `if not isinstance(preds, (list, tuple)): preds = [preds, None]` followed
by reading `preds[0]`. -/
def predsTensor : Preds → List (List (List ℚ))
  | .tensor t => t
  | .listOf t _ => t

/-- Modelled from the spec: `ops.xywh2xyxy` (its code is not in the provided
source) converts a `(center-x, center-y, width, height)` box into
`(x1, y1, x2, y2)` corner form. -/
def xywh2xyxy (b : ℚ × ℚ × ℚ × ℚ) : ℚ × ℚ × ℚ × ℚ :=
  (b.1 - b.2.2.1 / 2, b.2.1 - b.2.2.2 / 2, b.1 + b.2.2.1 / 2, b.2.1 + b.2.2.2 / 2)

/-- The first four entries of a prediction row: the `bboxes` half of
`preds[0].split((4, nd - 4), dim=-1)`. -/
def first4 (row : List ℚ) : ℚ × ℚ × ℚ × ℚ :=
  (row.getD 0 0, row.getD 1 0, row.getD 2 0, row.getD 3 0)

/-- One fold step of `score.max(-1)`: combine the head entry with the maximum
of the tail (ties keep the earliest index). -/
def argmaxStep (a : ℚ) : Option (ℚ × ℕ) → Option (ℚ × ℕ)
  | none => some (a, 0)
  | some (m, i) => if a < m then some (m, i + 1) else some (a, 0)

/-- `score.max(-1)`: the maximum entry together with an index attaining it
(ties keep the earliest index); `none` on an empty score vector. -/
def argmaxPair : List ℚ → Option (ℚ × ℕ)
  | [] => none
  | a :: t => argmaxStep a (argmaxPair t)

/-- One row of the loop body before filtering: `bbox = ops.xywh2xyxy(bbox)`,
`max_score, cls = score.max(-1, keepdim=True)`, assembled as
`[x1, y1, x2, y2, conf, cls]`. A row with an empty score vector decodes with
`conf = 0`, `cls = 0` (the real pipeline has `nd > 4`). -/
def rowToDet (row : List ℚ) : Det :=
  let c := xywh2xyxy (first4 row)
  match argmaxPair (row.drop 4) with
  | none => ⟨c.1, c.2.1, c.2.2.1, c.2.2.2, 0, 0⟩
  | some (m, i) => ⟨c.1, c.2.1, c.2.2.1, c.2.2.2, m, i⟩

/-- The retention test: `idx = max_score.squeeze(-1) > self.args.conf`, then
`idx = (cls == torch.tensor(self.args.classes)).any(1) & idx` when
`self.args.classes` is given. -/
def keep (a : Args) (d : Det) : Bool :=
  (decide (a.conf < d.conf)) &&
    (match a.classes with
     | none => true
     | some cs => cs.contains d.cls)

/-- The ordering used by `argsort(descending=True)` on column 4: `a` comes no
later than `b` when `a`'s confidence is at least `b`'s. -/
def confGe (a b : Det) : Prop :=
  b.conf ≤ a.conf

instance : DecidableRel confGe :=
  fun a b => inferInstanceAs (Decidable (b.conf ≤ a.conf))

instance : IsTotal Det confGe :=
  ⟨fun a b => le_total b.conf a.conf⟩

instance : IsTrans Det confGe :=
  ⟨fun _ _ _ hab hbc => hbc.trans hab⟩

/-- `pred[pred[:, 4].argsort(descending=True)]`: order detections by
confidence, largest first. -/
def sortDesc (l : List Det) : List Det :=
  List.insertionSort confGe l

/-- `pred[..., [0, 2]] *= ow` and `pred[..., [1, 3]] *= oh`. -/
def scaleDet (ow oh : ℚ) (d : Det) : Det :=
  { d with x1 := d.x1 * ow, x2 := d.x2 * ow, y1 := d.y1 * oh, y2 := d.y2 * oh }

/-- The body of `for bbox, score, orig_img, img_path in zip(...)`: decode each
row, filter by confidence (and class), sort by descending confidence, keep the
first `self.args.max_det`, scale by `oh, ow = orig_img.shape[:2]`, and build
the `Results` object. -/
def processOne (p : Predictor) (rows : List (List ℚ)) (orig_img : Image)
    (img_path : String) : Results :=
  let dets := (rows.map rowToDet).filter (keep p.args)
  let pred := ((sortDesc dets).take p.args.max_det).map
    (scaleDet (orig_img.w : ℚ) (orig_img.h : ℚ))
  ⟨orig_img, img_path, p.names, pred⟩

/-- `RTDETRPredictor.postprocess`. `img` is the processed input batch, which
the body never reads; `orig_imgs` is taken already in list form (the tensor
branch only converts it to one via the external
`ops.convert_torch2numpy_batch`). -/
def postprocess (p : Predictor) (preds : Preds)
    (img : List (List (List (List ℚ)))) (orig_imgs : List Image) : List Results :=
  ((predsTensor preds).zip (orig_imgs.zip p.batch_paths)).map
    fun x => processOne p x.1 x.2.1 x.2.2

/-- Modelled from the spec: `LetterBox(self.imgsz, auto=False, scale_fill=True)`
(its code is not in the provided source) stretch-resizes an image to the fixed
square `imgsz × imgsz` with no aspect-ratio padding; the resampled contents
are abstracted through `pix`. -/
def letterboxScaleFill (imgsz : ℕ) (x : Image) : Image :=
  ⟨imgsz, imgsz, x.pix⟩

/-- `RTDETRPredictor.pre_transform`: `[letterbox(image=x) for x in im]`. -/
def pre_transform (p : Predictor) (im : List Image) : List Image :=
  im.map (letterboxScaleFill p.imgsz)

/-- The state-passing form of `postprocess`: the method assigns no attribute
of `self`, and its only in-place writes (`pred[..., [0, 2]] *= ow`,
`pred[..., [1, 3]] *= oh`) target `pred`, a tensor freshly created by
`torch.cat(...)[idx]` and advanced indexing; the embedding therefore returns
the predictor state and the inputs exactly as it received them. -/
def postprocessSt (p : Predictor) (preds : Preds)
    (img : List (List (List (List ℚ)))) (orig_imgs : List Image) :
    List Results × Predictor × Preds × List (List (List (List ℚ))) × List Image :=
  (postprocess p preds img orig_imgs, p, preds, img, orig_imgs)

/-- The state-passing form of `pre_transform`: the method reads `self.imgsz`
and builds a fresh list, mutating neither `self` nor `im`. -/
def pre_transformSt (p : Predictor) (im : List Image) :
    List Image × Predictor × List Image :=
  (pre_transform p im, p, im)

/- Concrete fixtures used by the witness theorems. -/

/-- A 10 × 20 original image (`h = 10`, `w = 20`). -/
def imgW : Image := ⟨10, 20, 7⟩

/-- Three raw rows with `nd = 6` (4 box coordinates, 2 class scores). -/
def rowsW : List (List ℚ) :=
  [[2, 3, 2, 2, 1/4, 3/4], [1, 1, 2, 2, 9/10, 1/10], [0, 0, 1, 1, 1/3, 1/3]]

/-- A predictor with `conf = 1/2`, no class filter, `max_det = 3`. -/
def pW : Predictor := ⟨⟨1/2, none, 3⟩, ["a.jpg"], ["c0", "c1"], 640⟩

/-- The raw predictions fixture, in bare-tensor form. -/
def predsW : Preds := .tensor [rowsW]

/-- The first fixture row (`nd = 6`). -/
def rowW : List ℚ := [2, 3, 2, 2, 1/4, 3/4]

/-- The highest-confidence fixture detection, after scaling. -/
def detW1 : Det := ⟨0, 0, 40, 20, 9/10, 0⟩

/-- The second fixture detection, after scaling. -/
def detW2 : Det := ⟨20, 20, 60, 40, 3/4, 1⟩

/-- The `Results` object the fixture batch produces under `pW`. -/
def resW : Results := ⟨imgW, "a.jpg", ["c0", "c1"], [detW1, detW2]⟩

instance : Inhabited Image := ⟨⟨0, 0, 0⟩⟩

instance : Inhabited Det := ⟨⟨0, 0, 0, 0, 0, 0⟩⟩

instance : Inhabited Results := ⟨⟨default, "", [], []⟩⟩

/-! ## Helper lemmas -/

theorem scaleDet_x1 (ow oh : ℚ) (d : Det) : (scaleDet ow oh d).x1 = d.x1 * ow := rfl

theorem scaleDet_y1 (ow oh : ℚ) (d : Det) : (scaleDet ow oh d).y1 = d.y1 * oh := rfl

theorem scaleDet_x2 (ow oh : ℚ) (d : Det) : (scaleDet ow oh d).x2 = d.x2 * ow := rfl

theorem scaleDet_y2 (ow oh : ℚ) (d : Det) : (scaleDet ow oh d).y2 = d.y2 * oh := rfl

theorem scaleDet_conf (ow oh : ℚ) (d : Det) : (scaleDet ow oh d).conf = d.conf := rfl

theorem scaleDet_cls (ow oh : ℚ) (d : Det) : (scaleDet ow oh d).cls = d.cls := rfl

/-- The boxes of one `Results` are the scaled, truncated, sorted, filtered,
decoded rows. -/
theorem processOne_boxes (p : Predictor) (rows : List (List ℚ)) (oi : Image)
    (pa : String) :
    (processOne p rows oi pa).boxes =
      ((sortDesc ((rows.map rowToDet).filter (keep p.args))).take
        p.args.max_det).map (scaleDet (oi.w : ℚ) (oi.h : ℚ)) := rfl

/-- A retained box is a scaled decoded row that passed the filter. -/
theorem mem_boxes_elim {p : Predictor} {rows : List (List ℚ)} {oi : Image}
    {pa : String} {d : Det} (hd : d ∈ (processOne p rows oi pa).boxes) :
    ∃ d0, d0 ∈ (rows.map rowToDet).filter (keep p.args) ∧
      d = scaleDet (oi.w : ℚ) (oi.h : ℚ) d0 := by
  rw [processOne_boxes] at hd
  obtain ⟨d0, hmem, rfl⟩ := List.mem_map.mp hd
  refine ⟨d0, ?_, rfl⟩
  have hs : d0 ∈ sortDesc ((rows.map rowToDet).filter (keep p.args)) :=
    List.take_subset _ _ hmem
  exact (List.mem_insertionSort confGe).mp hs

/-- Every returned `Results` is `processOne` of a zipped triple. -/
theorem mem_postprocess_elim {p : Predictor} {preds : Preds}
    {img : List (List (List (List ℚ)))} {origs : List Image} {r : Results}
    (hr : r ∈ postprocess p preds img origs) :
    ∃ rows oi pa, r = processOne p rows oi pa := by
  simp only [postprocess] at hr
  obtain ⟨x, _, rfl⟩ := List.mem_map.mp hr
  exact ⟨x.1, x.2.1, x.2.2, rfl⟩

/-- What `keep` returning `true` guarantees. -/
theorem keep_true_elim {a : Args} {d : Det} (h : keep a d = true) :
    a.conf < d.conf ∧ ∀ cs, a.classes = some cs → d.cls ∈ cs := by
  cases hc : a.classes with
  | none =>
    simp only [keep, hc, Bool.and_true] at h
    exact ⟨of_decide_eq_true h, fun cs hcs => by simp at hcs⟩
  | some cs =>
    simp only [keep, hc, Bool.and_eq_true, decide_eq_true_eq] at h
    refine ⟨h.1, fun cs2 hcs2 => ?_⟩
    obtain rfl := Option.some.inj hcs2
    simpa using h.2

/-- The box corners of a decoded row are the converted first four entries,
whatever the score vector holds. -/
theorem rowToDet_box (row : List ℚ) :
    (rowToDet row).x1 = (xywh2xyxy (first4 row)).1 ∧
    (rowToDet row).y1 = (xywh2xyxy (first4 row)).2.1 ∧
    (rowToDet row).x2 = (xywh2xyxy (first4 row)).2.2.1 ∧
    (rowToDet row).y2 = (xywh2xyxy (first4 row)).2.2.2 := by
  cases h : argmaxPair (row.drop 4) with
  | none => simp [rowToDet, h]
  | some v => obtain ⟨m, i⟩ := v; simp [rowToDet, h]

/-- `argmaxStep` never returns `none`. -/
theorem argmaxStep_isSome (a : ℚ) (o : Option (ℚ × ℕ)) :
    (argmaxStep a o).isSome = true := by
  cases o with
  | none => rfl
  | some v =>
    obtain ⟨m, i⟩ := v
    by_cases h : a < m <;> simp [argmaxStep, h]

/-- `argmaxPair` returns an entry of the list that bounds every entry, paired
with an index attaining it. -/
theorem argmaxPair_spec :
    ∀ (l : List ℚ) (m : ℚ) (i : ℕ), argmaxPair l = some (m, i) →
      l[i]? = some m ∧ ∀ x ∈ l, x ≤ m := by
  intro l
  induction l with
  | nil => intro m i h; cases h
  | cons a t ih =>
    intro m i h
    rw [argmaxPair] at h
    cases ht : argmaxPair t with
    | none =>
      rw [ht] at h
      simp only [argmaxStep, Option.some.injEq, Prod.mk.injEq] at h
      obtain ⟨rfl, rfl⟩ := h
      have hnil : t = [] := by
        cases t with
        | nil => rfl
        | cons b u =>
          rw [argmaxPair] at ht
          have := argmaxStep_isSome b (argmaxPair u)
          rw [ht] at this
          cases this
      subst hnil
      exact ⟨by simp, by simp⟩
    | some v =>
      obtain ⟨m2, i2⟩ := v
      rw [ht] at h
      obtain ⟨hg, hb⟩ := ih m2 i2 ht
      by_cases hlt : a < m2
      · simp only [argmaxStep, if_pos hlt, Option.some.injEq, Prod.mk.injEq] at h
        obtain ⟨rfl, rfl⟩ := h
        refine ⟨by simpa using hg, ?_⟩
        intro x hx
        rcases List.mem_cons.mp hx with rfl | hx2
        · exact le_of_lt hlt
        · exact hb x hx2
      · simp only [argmaxStep, if_neg hlt, Option.some.injEq, Prod.mk.injEq] at h
        obtain ⟨rfl, rfl⟩ := h
        refine ⟨by simp, ?_⟩
        intro x hx
        rcases List.mem_cons.mp hx with rfl | hx2
        · exact le_rfl
        · exact (hb x hx2).trans (not_lt.mp hlt)

/-- Evaluation of the loop body on the fixture image. -/
theorem processOne_fixture : processOne pW rowsW imgW "a.jpg" = resW := by
  norm_num [processOne, pW, rowsW, imgW, rowToDet, argmaxPair, argmaxStep,
    keep, sortDesc, confGe, scaleDet, xywh2xyxy, first4, resW, detW1, detW2]

/-- Evaluation of `postprocess` on the fixture batch. -/
theorem postprocess_fixture : postprocess pW predsW [] [imgW] = [resW] := by
  have h : postprocess pW predsW [] [imgW] =
      [processOne pW rowsW imgW "a.jpg"] := rfl
  rw [h, processOne_fixture]

/-- The scaled fixture detection is among the boxes of the fixture call. -/
theorem detW1_mem_boxes : detW1 ∈ (processOne pW rowsW imgW "a.jpg").boxes := by
  rw [processOne_fixture]
  simp [resW]

/-- The fixture `Results` is among the returned list. -/
theorem resW_mem : resW ∈ postprocess pW predsW [] [imgW] := by
  rw [postprocess_fixture]
  exact List.mem_singleton.mpr rfl

/-- In-bounds `getD` commutes with `map`, for any defaults. -/
theorem getD_map_of_lt {α β : Type} (f : α → β) (l : List α) (i : ℕ) (d : β)
    (d0 : α) (hi : i < l.length) :
    (l.map f).getD i d = f (l.getD i d0) := by
  rw [List.getD_eq_getElem?_getD, List.getD_eq_getElem?_getD,
    List.getElem?_map, List.getElem?_eq_getElem hi]
  simp

/-- In-bounds `getD` of a zip is the pair of the components' `getD`. -/
theorem getD_zip_of_lt {α β : Type} (l : List α) (m : List β) (i : ℕ)
    (d : α × β) (hl : i < l.length) (hm : i < m.length) :
    (l.zip m).getD i d = (l.getD i d.1, m.getD i d.2) := by
  have hz : i < (l.zip m).length := by rw [List.length_zip]; omega
  rw [List.getD_eq_getElem?_getD, List.getElem?_eq_getElem hz,
    List.getD_eq_getElem?_getD, List.getElem?_eq_getElem hl,
    List.getD_eq_getElem?_getD, List.getElem?_eq_getElem hm]
  simp [List.getElem_zip]

/-! ## Claim theorems -/

/-- C1: every detection row retained in a `Results` returned by `postprocess`
has confidence (the maximum per-class score of its row) strictly greater than
`self.args.conf`. -/
theorem postprocess_conf_gt (p : Predictor) (preds : Preds)
    (img : List (List (List (List ℚ)))) (origs : List Image) :
    ∀ r ∈ postprocess p preds img origs, ∀ d ∈ r.boxes,
      p.args.conf < d.conf := by
  intro r hr d hd
  obtain ⟨rows, oi, pa, rfl⟩ := mem_postprocess_elim hr
  obtain ⟨d0, hd0, rfl⟩ := mem_boxes_elim hd
  have hk := (List.mem_filter.mp hd0).2
  exact (keep_true_elim hk).1

/-- C1 at the fixture batch: the retained fixture detection clears the
threshold. -/
theorem postprocess_conf_gt_witness : pW.args.conf < detW1.conf :=
  postprocess_conf_gt pW predsW [] [imgW] resW resW_mem detW1
    (by simp [resW])

/-- C2: every retained box equals the xywh→xyxy conversion of the model box
with x coordinates scaled by the original image width and y coordinates by
its height (`oh, ow = orig_img.shape[:2]`). -/
theorem postprocess_box_scaling (p : Predictor) (rows : List (List ℚ))
    (oi : Image) (pa : String) :
    ∀ d ∈ (processOne p rows oi pa).boxes, ∃ row ∈ rows,
      d.x1 = (xywh2xyxy (first4 row)).1 * (oi.w : ℚ) ∧
      d.y1 = (xywh2xyxy (first4 row)).2.1 * (oi.h : ℚ) ∧
      d.x2 = (xywh2xyxy (first4 row)).2.2.1 * (oi.w : ℚ) ∧
      d.y2 = (xywh2xyxy (first4 row)).2.2.2 * (oi.h : ℚ) := by
  intro d hd
  obtain ⟨d0, hd0, rfl⟩ := mem_boxes_elim hd
  obtain ⟨row, hrow, rfl⟩ := List.mem_map.mp (List.mem_filter.mp hd0).1
  have hb := rowToDet_box row
  refine ⟨row, hrow, ?_, ?_, ?_, ?_⟩
  · rw [scaleDet_x1, hb.1]
  · rw [scaleDet_y1, hb.2.1]
  · rw [scaleDet_x2, hb.2.2.1]
  · rw [scaleDet_y2, hb.2.2.2]

/-- C2 at the fixture: the top fixture detection is a scaled converted row. -/
theorem postprocess_box_scaling_witness :
    ∃ row ∈ rowsW,
      detW1.x1 = (xywh2xyxy (first4 row)).1 * (imgW.w : ℚ) ∧
      detW1.y1 = (xywh2xyxy (first4 row)).2.1 * (imgW.h : ℚ) ∧
      detW1.x2 = (xywh2xyxy (first4 row)).2.2.1 * (imgW.w : ℚ) ∧
      detW1.y2 = (xywh2xyxy (first4 row)).2.2.2 * (imgW.h : ℚ) :=
  postprocess_box_scaling pW rowsW imgW "a.jpg" detW1 detW1_mem_boxes

/-- C3: the boxes of one `Results` are exactly the at most `max_det`
highest-confidence filtered detections, listed in descending confidence
order: they are the scaled prefix of the sorted filtered list, sorting
permutes the filtered list, the output is sorted by `confGe`, its length is
`min max_det` the filtered count, and every kept detection dominates every
dropped one. -/
theorem processOne_topk_sorted_desc (p : Predictor) (rows : List (List ℚ))
    (oi : Image) (pa : String) :
    (processOne p rows oi pa).boxes =
      ((sortDesc ((rows.map rowToDet).filter (keep p.args))).take
        p.args.max_det).map (scaleDet (oi.w : ℚ) (oi.h : ℚ)) ∧
    List.Perm (sortDesc ((rows.map rowToDet).filter (keep p.args)))
      ((rows.map rowToDet).filter (keep p.args)) ∧
    List.Sorted confGe (processOne p rows oi pa).boxes ∧
    (processOne p rows oi pa).boxes.length =
      min p.args.max_det ((rows.map rowToDet).filter (keep p.args)).length ∧
    ∀ d ∈ (sortDesc ((rows.map rowToDet).filter (keep p.args))).take
        p.args.max_det,
      ∀ e ∈ (sortDesc ((rows.map rowToDet).filter (keep p.args))).drop
          p.args.max_det,
        e.conf ≤ d.conf := by
  have hsorted : List.Sorted confGe
      (sortDesc ((rows.map rowToDet).filter (keep p.args))) :=
    List.sorted_insertionSort confGe _
  refine ⟨processOne_boxes .., List.perm_insertionSort confGe _, ?_, ?_, ?_⟩
  · rw [processOne_boxes]
    refine List.pairwise_map.mpr ?_
    exact (hsorted.sublist (List.take_sublist ..)).imp (fun h => h)
  · rw [processOne_boxes, List.length_map, List.length_take, sortDesc,
      List.length_insertionSort]
  · intro d hd e he
    have hsplit : List.Pairwise confGe
        ((sortDesc ((rows.map rowToDet).filter (keep p.args))).take
            p.args.max_det ++
          (sortDesc ((rows.map rowToDet).filter (keep p.args))).drop
            p.args.max_det) := by
      rw [List.take_append_drop]
      exact hsorted
    exact (List.pairwise_append.mp hsplit).2.2 d hd e he

/-- C4: with a class list every retained detection's label belongs to it;
without one, retention is exactly the confidence test. -/
theorem postprocess_class_filter (p : Predictor) (preds : Preds)
    (img : List (List (List (List ℚ)))) (origs : List Image) :
    (∀ cs, p.args.classes = some cs →
      ∀ r ∈ postprocess p preds img origs, ∀ d ∈ r.boxes, d.cls ∈ cs) ∧
    (p.args.classes = none →
      ∀ d : Det, keep p.args d = true ↔ p.args.conf < d.conf) := by
  constructor
  · intro cs hcs r hr d hd
    obtain ⟨rows, oi, pa, rfl⟩ := mem_postprocess_elim hr
    obtain ⟨d0, hd0, rfl⟩ := mem_boxes_elim hd
    have hk := (List.mem_filter.mp hd0).2
    exact (keep_true_elim hk).2 cs hcs
  · intro hnone d
    simp [keep, hnone]

/-- C5: a row splits into its first 4 entries (the box, converted to corner
form) and the remaining entries (the scores); the decoded confidence is the
maximum score and the class is an index attaining it. -/
theorem row_split_and_argmax (row : List ℚ) (h : 4 < row.length) :
    row.take 4 ++ row.drop 4 = row ∧
    (row.take 4).length = 4 ∧
    (row.drop 4).length = row.length - 4 ∧
    ((rowToDet row).x1, (rowToDet row).y1, (rowToDet row).x2,
      (rowToDet row).y2) = xywh2xyxy (first4 row) ∧
    (row.drop 4)[(rowToDet row).cls]? = some (rowToDet row).conf ∧
    ∀ s ∈ row.drop 4, s ≤ (rowToDet row).conf := by
  have hne : row.drop 4 ≠ [] := by
    intro hnil
    have := List.length_drop 4 row
    rw [hnil] at this
    simp at this
    omega
  obtain ⟨b, u, hbu⟩ := List.exists_cons_of_ne_nil hne
  have hsome : (argmaxPair (row.drop 4)).isSome = true := by
    rw [hbu, argmaxPair]
    exact argmaxStep_isSome ..
  obtain ⟨⟨m, i⟩, ha⟩ := Option.isSome_iff_exists.mp hsome
  have hconf : (rowToDet row).conf = m := by simp [rowToDet, ha]
  have hcls : (rowToDet row).cls = i := by simp [rowToDet, ha]
  have hspec := argmaxPair_spec (row.drop 4) m i ha
  have hb := rowToDet_box row
  refine ⟨List.take_append_drop .., ?_, List.length_drop .., ?_, ?_, ?_⟩
  · rw [List.length_take]
    omega
  · rw [hb.1, hb.2.1, hb.2.2.1, hb.2.2.2]
  · rw [hconf, hcls]
    exact hspec.1
  · rw [hconf]
    exact hspec.2

/-- C5 at the fixture row: the decoded class indexes the maximum score. -/
theorem row_split_and_argmax_witness :
    (rowW.drop 4)[(rowToDet rowW).cls]? = some (rowToDet rowW).conf :=
  (row_split_and_argmax rowW (by norm_num [rowW])).2.2.2.2.1

/-- C6: `pre_transform` keeps the list length, letterboxes each element in
place, and every output is the square `imgsz × imgsz`. -/
theorem pre_transform_letterboxes (p : Predictor) (im : List Image)
    (h : im ≠ []) :
    (pre_transform p im).length = im.length ∧
    (∀ i : ℕ, (pre_transform p im)[i]? =
      im[i]?.map (letterboxScaleFill p.imgsz)) ∧
    ∀ y ∈ pre_transform p im, y.h = p.imgsz ∧ y.w = p.imgsz := by
  refine ⟨by simp [pre_transform], fun i => by
    simp [pre_transform, List.getElem?_map], ?_⟩
  intro y hy
  obtain ⟨x, _, rfl⟩ := List.mem_map.mp hy
  exact ⟨rfl, rfl⟩

/-- C6 at the fixture: a one-image batch keeps its length. -/
theorem pre_transform_letterboxes_witness :
    (pre_transform pW [imgW]).length = ([imgW] : List Image).length :=
  (pre_transform_letterboxes pW [imgW] (by simp)).1

/-- C7: a bare tensor input is handled exactly like the wrapped
`[predictions, None]` form. -/
theorem postprocess_bare_tensor_equiv (p : Predictor)
    (t : List (List (List ℚ))) (img : List (List (List (List ℚ))))
    (origs : List Image) :
    postprocess p (Preds.tensor t) img origs =
      postprocess p (Preds.listOf t none) img origs := rfl

/-- C8: with matching batch lengths, `postprocess` returns one `Results` per
input image, built from that image's rows, original image and source path. -/
theorem postprocess_one_per_image (p : Predictor) (preds : Preds)
    (img : List (List (List (List ℚ)))) (origs : List Image)
    (h1 : (predsTensor preds).length = origs.length)
    (h2 : p.batch_paths.length = origs.length) :
    (postprocess p preds img origs).length = origs.length ∧
    ∀ i, i < origs.length →
      (postprocess p preds img origs).getD i default =
        processOne p ((predsTensor preds).getD i [])
          (origs.getD i default) (p.batch_paths.getD i "") := by
  have hz : ((predsTensor preds).zip (origs.zip p.batch_paths)).length =
      origs.length := by
    simp [List.length_zip, h1, h2]
  constructor
  · simp only [postprocess, List.length_map]
    exact hz
  · intro i hi
    have hzi : i < (origs.zip p.batch_paths).length := by
      rw [List.length_zip]
      omega
    have h1i : i < (predsTensor preds).length := by omega
    simp only [postprocess]
    rw [getD_map_of_lt _ _ i default ([], default, "") (by omega)]
    rw [getD_zip_of_lt _ _ i _ h1i hzi]
    rw [getD_zip_of_lt _ _ i _ (by omega) (by omega)]

/-- C8 at the fixture batch: the single returned `Results` is built from the
single image's rows, image and path. -/
theorem postprocess_one_per_image_witness :
    (postprocess pW predsW [] [imgW]).getD 0 default =
      processOne pW ((predsTensor predsW).getD 0 [])
        (([imgW] : List Image).getD 0 default) (pW.batch_paths.getD 0 "") :=
  (postprocess_one_per_image pW predsW [] [imgW] rfl rfl).2 0 (by decide)

/-- C9: both methods are stateless: the state-passing embeddings return the
predictor state and every input unchanged; the coordinate scaling lives in
the freshly built `pred` value inside `processOne`. -/
theorem methods_stateless (p : Predictor) (preds : Preds)
    (img : List (List (List (List ℚ)))) (origs : List Image)
    (im : List Image) :
    (postprocessSt p preds img origs).2 = (p, preds, img, origs) ∧
    (pre_transformSt p im).2 = (p, im) :=
  ⟨rfl, rfl⟩

/-- C10: the returned `Results` do not depend on the processed-input tensor
`img`; only the original images' dimensions scale the boxes. -/
theorem postprocess_img_independent (p : Predictor) (preds : Preds)
    (img1 img2 : List (List (List (List ℚ)))) (origs : List Image) :
    postprocess p preds img1 origs = postprocess p preds img2 origs := rfl

end RTDETR
